import Mathlib

/-!
Shallow embedding of `CoursewareSearchIndexer` from
`common/lib/xmodule/xmodule/modulestore/courseware_index.py`.

The module walks a course tree depth-first (`index_item`), pushing a search
document per indexable node, records every visited candidate id in
`indexed_items`, and then reconciles (`remove_deleted_items`) by deleting from
the search engine every document of the course whose id was not recorded.
Timestamps are modelled as integers (seconds); `REINDEX_AGE` is 60 seconds.
Python `None` / falsy values are modelled with `Option`.  External
collaborators (search engine, modulestore) are modelled at their interface
boundary: the engine as a list of documents with exclusion-set search, the
modulestore fetch as an `Except` value, and fallible calls
(`item.index_dictionary()`, `searcher.index`) as values that may signal an
exception.  A ghost `visits` trace records each candidate node visit together
with the skip flag and effective start date it was visited with, so that
traversal-order properties are stateable.
-/

namespace CoursewareIndex

/-- `REINDEX_AGE = timedelta(0, 60)`: the staleness threshold, in seconds. -/
def REINDEX_AGE : Int := 60

/-- A content node (XBlock) as seen by the walk: usage id, the
`hasattr(item, "index_dictionary")` capability, the `has_children` flag,
optional `start` timestamp, `subtree_edited_on` timestamp, the result of
calling `index_dictionary()` (which may raise, return `None`, or return a
field mapping), and the list returned by `get_children()`. -/
inductive Item : Type where
  | node : String → Bool → Bool → Option Int → Int →
      Except String (Option (List (String × String))) → List Item → Item

/-- The node's usage id, `unicode(item.scope_ids.usage_id)`. -/
def Item.usageId : Item → String
  | .node u _ _ _ _ _ _ => u

/-- Whether `hasattr(item, "index_dictionary")` holds. -/
def Item.isIndexable : Item → Bool
  | .node _ ix _ _ _ _ _ => ix

/-- The `item.has_children` flag. -/
def Item.hasChildren : Item → Bool
  | .node _ _ hc _ _ _ _ => hc

/-- The optional `item.start` timestamp. -/
def Item.start : Item → Option Int
  | .node _ _ _ s _ _ _ => s

/-- The `item.subtree_edited_on` timestamp. -/
def Item.subtreeEditedOn : Item → Int
  | .node _ _ _ _ se _ _ => se

/-- The outcome of calling `item.index_dictionary()`: an exception, `None`,
or a field mapping (possibly empty, which is falsy in Python). -/
def Item.indexDict : Item → Except String (Option (List (String × String)))
  | .node _ _ _ _ _ d _ => d

/-- The list returned by `item.get_children()`. -/
def Item.children : Item → List Item
  | .node _ _ _ _ _ _ ch => ch

/-- A document pushed to the search engine: `location_info` (the `course`
field), the node-supplied fields, the `id` field, and the optional
`start_date` field. -/
structure Doc where
  course : String
  id : String
  fields : List (String × String)
  startDate : Option Int
  deriving Repr, DecidableEq

/-- Ghost record of one candidate-node visit: the node's id, the
`skip_index` flag it was visited with, and the effective start date
(`current_start_date` after applying the node's own `start`). -/
structure Visit where
  id : String
  skip : Bool
  effStart : Option Int
  deriving Repr, DecidableEq

/-- The mutable state shared by the closures of `index_course`:
`indexed_items` (a set, kept as a duplicate-free list), `error_list`,
the documents successfully pushed by `searcher.index`, and the ghost
visit trace. -/
structure WalkState where
  indexedItems : List String
  errorList : List String
  pushedDocs : List Doc
  visits : List Visit
  deriving Repr, DecidableEq

/-- The empty per-pass state. -/
def emptyState : WalkState := ⟨[], [], [], []⟩

/-- `indexed_items.add(item_id)`: set insertion. -/
def addId (uid : String) (l : List String) : List String :=
  if l.contains uid then l else l ++ [uid]

/-- The update of `current_start_date`:
`if item.start and (not current_start_date or item.start > current_start_date)`. -/
def updStart (itemStart current : Option Int) : Option Int :=
  match itemStart with
  | none => current
  | some s =>
    match current with
    | none => some s
    | some c => if s > c then some s else current

/-- The staleness test guarding `skip_child_index`:
`triggered_at is not None and (triggered_at - item.subtree_edited_on) > REINDEX_AGE`. -/
def staleCheck (triggeredAt : Option Int) (subtreeEditedOn : Int) : Bool :=
  match triggeredAt with
  | none => false
  | some t => decide (t - subtreeEditedOn > REINDEX_AGE)

/-- Python truthiness of `item_index_dictionary`: `None` and `{}` are falsy. -/
def dictTruthy : Option (List (String × String)) → Bool
  | none => false
  | some l => !l.isEmpty

/-- The message appended to `error_list` when `searcher.index` raises. -/
def couldNotIndexMsg (loc : String) : String :=
  "Could not index item: " ++ loc

/-- The message appended to `error_list` by the top-level handler. -/
def generalErrorMsg : String := "General indexing error occurred"

mutual

/-- Embedding of the inner function `index_item(item, current_start_date,
skip_index)`.  `fails uid` models `searcher.index` raising for the document
with id `uid`.  Returns the updated state and `some e` when an exception
escapes `index_item` (only `item.index_dictionary()` raising can do so; it
sits outside the inner `try`). -/
def index_item (fails : String → Bool) (courseKey : String)
    (triggeredAt : Option Int) (item : Item) (currentStartDate : Option Int)
    (skipIndex : Bool) (st : WalkState) : WalkState × Option String :=
  match item with
  | .node uid ix hc strt se dict ch =>
    if !ix && !hc then (st, none)
    else
      let newCsd := updStart strt currentStartDate
      let st1 : WalkState :=
        { indexedItems := addId uid st.indexedItems
          errorList := st.errorList
          pushedDocs := st.pushedDocs
          visits := st.visits ++ [⟨uid, skipIndex, newCsd⟩] }
      let res :=
        if hc then
          index_items fails courseKey triggeredAt ch newCsd
            (skipIndex || staleCheck triggeredAt se) st1
        else (st1, none)
      match res with
      | (st2, some e) => (st2, some e)
      | (st2, none) =>
        if skipIndex then (st2, none)
        else
          match (if ix then dict else Except.ok none) with
          | .error e => (st2, some e)
          | .ok d =>
            if dictTruthy d then
              if fails uid then
                ({ st2 with errorList := st2.errorList ++ [couldNotIndexMsg uid] },
                 none)
              else
                ({ st2 with pushedDocs :=
                    st2.pushedDocs ++ [⟨courseKey, uid, d.getD [], newCsd⟩] },
                 none)
            else (st2, none)

/-- The `for child_item in item.get_children()` loop: folds `index_item`
over the children, aborting on the first escaping exception. -/
def index_items (fails : String → Bool) (courseKey : String)
    (triggeredAt : Option Int) (items : List Item) (currentStartDate : Option Int)
    (skipIndex : Bool) (st : WalkState) : WalkState × Option String :=
  match items with
  | [] => (st, none)
  | i :: rest =>
    match index_item fails courseKey triggeredAt i currentStartDate skipIndex st with
    | (st', none) =>
      index_items fails courseKey triggeredAt rest currentStartDate skipIndex st'
    | (st', some e) => (st', some e)

end

/-- A document as stored in the search engine: its `course` field and its
`id` field (the only fields reconciliation looks at). -/
structure EngineDoc where
  course : String
  id : String
  deriving Repr, DecidableEq

/-- The search engine's document store for `DOCUMENT_TYPE`. -/
structure Engine where
  docs : List EngineDoc
  deriving Repr, DecidableEq

/-- `searcher.index(DOCUMENT_TYPE, item_index)`: re-indexing with the same
id overwrites the stored document. -/
def engineIndex (e : Engine) (d : Doc) : Engine :=
  ⟨e.docs.filter (fun x => x.id != d.id) ++ [⟨d.course, d.id⟩]⟩

/-- `searcher.remove(DOCUMENT_TYPE, result_id)`: delete the document(s)
bearing that id. -/
def engineRemove (e : Engine) (rid : String) : Engine :=
  ⟨e.docs.filter (fun x => x.id != rid)⟩

/-- `searcher.search(doc_type=..., field_dictionary={"course": course_key},
exclude_ids=indexed_items)`, per the engine's interface contract: the ids of
the stored documents whose `course` field equals the course key and whose id
is not in the exclusion set. -/
def engineSearchIds (e : Engine) (courseKey : String)
    (excludeIds : List String) : List String :=
  (e.docs.filter (fun x => x.course == courseKey && !excludeIds.contains x.id)).map
    EngineDoc.id

/-- Embedding of the inner function `remove_deleted_items()`: query the
engine with the course filter and the indexed-item exclusion set, then
remove every result id. -/
def remove_deleted_items (e : Engine) (courseKey : String)
    (indexedItems : List String) : Engine :=
  (engineSearchIds e courseKey indexedItems).foldl engineRemove e

/-- What `index_course` does as observed by the caller: `return` (with
`None` or `indexed_count`), `raise SearchIndexingError(..., error_list)`,
or an exception propagating uncaught out of the function. -/
inductive IndexResult where
  | returned : Option Nat → IndexResult
  | raisedError : List String → IndexResult
  | uncaught : String → IndexResult
  deriving Repr, DecidableEq

/-- The whole observable outcome of one `index_course` call: the result,
the final engine state, and the final per-pass accumulators. -/
structure Outcome where
  result : IndexResult
  engine : Engine
  walk : WalkState
  deriving Repr, DecidableEq

/-- The final `if raise_on_error and error_list: raise ... return indexed_count`
step.  `indexed_count` is initialized to 0 and never modified. -/
def finishResult (raiseOnError : Bool) (errorList : List String) : IndexResult :=
  if raiseOnError && !errorList.isEmpty then .raisedError errorList
  else .returned (some 0)

/-- Embedding of `CoursewareSearchIndexer.index_course(modulestore,
course_key, raise_on_error, triggered_at)`.

`searcherPresent` models `SearchEngine.get_search_engine(INDEX_NAME)`
returning an engine or `None`; `engine` is the engine's current document
store; `fails` models which `searcher.index` calls raise; `getCourse`
models `modulestore.get_course(...)` returning the course item or raising.

The `try` block wraps only the walk over `course.get_children()` and
`remove_deleted_items()`; `get_course` sits before it, so a failure there
propagates uncaught. -/
def index_course (searcherPresent : Bool) (engine : Engine)
    (fails : String → Bool) (getCourse : Except String Item)
    (courseKey : String) (raiseOnError : Bool)
    (triggeredAt : Option Int) : Outcome :=
  if !searcherPresent then ⟨.returned none, engine, emptyState⟩
  else
    match getCourse with
    | .error e => ⟨.uncaught e, engine, emptyState⟩
    | .ok course =>
      match index_items fails courseKey triggeredAt course.children
          course.start false emptyState with
      | (st, some _) =>
        let errs := st.errorList ++ [generalErrorMsg]
        ⟨finishResult raiseOnError errs,
         st.pushedDocs.foldl engineIndex engine,
         { st with errorList := errs }⟩
      | (st, none) =>
        ⟨finishResult raiseOnError st.errorList,
         remove_deleted_items (st.pushedDocs.foldl engineIndex engine)
           courseKey st.indexedItems,
         st⟩

/-- Boolean order on optional timestamps: `none` (no date) is below
everything; `some` values compare as integers. -/
def optLe : Option Int → Option Int → Bool
  | none, _ => true
  | some _, none => false
  | some x, some y => decide (x ≤ y)

/-- A `searcher.index` stub that never raises. -/
def noFails : String → Bool := fun _ => false

/-- A `searcher.index` stub that raises exactly on the given ids. -/
def failsOn (bad : List String) : String → Bool := fun uid => bad.contains uid

/-- Scenario A leaf: one indexable child with `index_dictionary() =
{title: "x"}`, no start date, no children. -/
def scenarioALeaf : Item :=
  .node "block-a" true false none 0 (Except.ok (some [("title", "x")])) []

/-- Scenario A course: not itself indexable, one indexable child, empty
`start`. -/
def scenarioACourse : Item :=
  .node "course-root" false true none 0 (Except.ok none) [scenarioALeaf]

/-- A parent node whose subtree was last edited at time 0, with one fresh
indexable child; used with `triggered_at = 90` to exercise the staleness
branch. -/
def staleParent : Item :=
  .node "parent" true true none 0 (Except.ok (some [("t", "y")])) [scenarioALeaf]

/-- A node whose `index_dictionary()` call raises. -/
def badDictItem : Item :=
  .node "bad" true false none 0 (Except.error "boom") []

/-- A well-behaved sibling of `badDictItem`. -/
def goodItem : Item :=
  .node "good" true false none 0 (Except.ok (some [("t", "y")])) []

/-- A small engine state for witnesses: two documents of course "c" and one
of another course. -/
def sampleEngine : Engine :=
  ⟨[⟨"c", "keep"⟩, ⟨"c", "gone"⟩, ⟨"other", "x"⟩]⟩

/-- A node that is neither indexable nor has children: pruned by the walk. -/
def noIdxLeaf : Item := .node "empty" false false none 0 (Except.ok none) []

/-- A leaf whose document push (`searcher.index`) raises; pair with
`failsOn ["f1"]`. -/
def sendFailLeaf : Item :=
  .node "f1" true false none 0 (Except.ok (some [("a", "b")])) []

/-- A course whose only child is `badDictItem` (its `index_dictionary()`
raises). -/
def badCourse : Item :=
  .node "course-root2" false true none 0 (Except.ok none) [badDictItem]

/-- A course whose only child is `sendFailLeaf`. -/
def errCourse : Item :=
  .node "course-root3" false true none 0 (Except.ok none) [sendFailLeaf]

/-- A leaf with its own `start = 7`, for exercising the effective start
date computation. -/
def startLeaf : Item :=
  .node "s1" true false (some 7) 0 (Except.ok (some [("a", "b")])) []

mutual

/-- The ids of the candidate (non-pruned) nodes of a subtree, in visit
order: the ids the walk records in `indexed_items`. -/
def candidateIds : Item → List String
  | .node u ix hc _ _ _ ch =>
    if !ix && !hc then [] else u :: (if hc then candidateIdsList ch else [])

/-- `candidateIds` over a list of sibling subtrees. -/
def candidateIdsList : List Item → List String
  | [] => []
  | i :: rest => candidateIds i ++ candidateIdsList rest

end

/-- Mutual induction over items and child lists, from the nested recursor. -/
theorem item_mutual_induction {P : Item → Prop} {Q : List Item → Prop}
    (hnode : ∀ u ix hc s se d ch, Q ch → P (Item.node u ix hc s se d ch))
    (hnil : Q []) (hcons : ∀ i l, P i → Q l → Q (i :: l)) :
    (∀ i, P i) ∧ (∀ l, Q l) := by
  refine ⟨fun i => @Item.rec P Q hnode hnil hcons i, fun l => ?_⟩
  induction l with
  | nil => exact hnil
  | cons h t ih => exact hcons h t (@Item.rec P Q hnode hnil hcons h) ih

/-- Set insertion preserves membership. -/
theorem addId_mem_of {x : String} {l : List String} (u : String) (h : x ∈ l) :
    x ∈ addId u l := by
  unfold addId; split <;> simp [h]

/-- Set insertion puts the inserted element in the set. -/
theorem addId_self (u : String) (l : List String) : u ∈ addId u l := by
  unfold addId; split
  · exact List.mem_of_elem_eq_true (by assumption)
  · simp

/-- The walk never removes an id from `indexed_items`: membership is
preserved by `index_item` and `index_items`, whatever the skip flag and
whether or not an exception escapes. -/
theorem indexed_mono_pair :
    (∀ (i : Item) (fails : String → Bool) (ck : String) (ta : Option Int)
        (csd : Option Int) (skip : Bool) (st : WalkState) (x : String),
      x ∈ st.indexedItems →
        x ∈ (index_item fails ck ta i csd skip st).1.indexedItems) ∧
    (∀ (l : List Item) (fails : String → Bool) (ck : String) (ta : Option Int)
        (csd : Option Int) (skip : Bool) (st : WalkState) (x : String),
      x ∈ st.indexedItems →
        x ∈ (index_items fails ck ta l csd skip st).1.indexedItems) := by
  apply item_mutual_induction
  · intro u ix hc s se d ch ih fails ck ta csd skip st x hx
    rw [index_item]
    split
    · exact hx
    · have hx1 : x ∈ addId u st.indexedItems := addId_mem_of u hx
      by_cases hhc : hc = true
      · simp only [hhc, if_true]
        rcases hres : index_items fails ck ta ch (updStart s csd)
            (skip || staleCheck ta se)
            ⟨addId u st.indexedItems, st.errorList, st.pushedDocs,
             st.visits ++ [⟨u, skip, updStart s csd⟩]⟩ with ⟨st2, f⟩
        have h2 : x ∈ st2.indexedItems := by
          have h3 := ih fails ck ta (updStart s csd) (skip || staleCheck ta se)
            ⟨addId u st.indexedItems, st.errorList, st.pushedDocs,
             st.visits ++ [⟨u, skip, updStart s csd⟩]⟩ x hx1
          rw [hres] at h3
          exact h3
        rw [hres]
        cases f with
        | none => dsimp only; (repeat' split) <;> exact h2
        | some e => exact h2
      · simp only [if_neg hhc]
        (repeat' split) <;> exact hx1
  · intro fails ck ta csd skip st x hx
    rw [index_items]; exact hx
  · intro i l ihi ihl fails ck ta csd skip st x hx
    rw [index_items]
    rcases hres : index_item fails ck ta i csd skip st with ⟨st', f⟩
    have h1 := ihi fails ck ta csd skip st x hx
    rw [hres] at h1
    cases f with
    | none => exact ihl fails ck ta csd skip st' x h1
    | some e => exact h1

/-- A candidate node (indexable or with children) always lands in
`indexed_items`, whatever the skip flag and whether or not an exception
escapes later. -/
theorem candidate_mem_indexed (fails : String → Bool) (ck : String)
    (ta : Option Int) (i : Item) (csd : Option Int) (skip : Bool)
    (st : WalkState) (h : i.isIndexable = true ∨ i.hasChildren = true) :
    i.usageId ∈ (index_item fails ck ta i csd skip st).1.indexedItems := by
  rcases i with ⟨u, ix, hc, s, se, d, ch⟩
  rw [index_item]
  split
  · rename_i hcond
    rcases h with h | h <;> simp [Item.isIndexable, Item.hasChildren] at h <;>
      simp [h] at hcond
  · have hx1 : u ∈ addId u st.indexedItems := addId_self u st.indexedItems
    by_cases hhc : hc = true
    · simp only [hhc, if_true]
      rcases hres : index_items fails ck ta ch (updStart s csd)
          (skip || staleCheck ta se)
          ⟨addId u st.indexedItems, st.errorList, st.pushedDocs,
           st.visits ++ [⟨u, skip, updStart s csd⟩]⟩ with ⟨st2, f⟩
      have h2 : u ∈ st2.indexedItems := by
        have h3 := indexed_mono_pair.2 ch fails ck ta (updStart s csd)
          (skip || staleCheck ta se)
          ⟨addId u st.indexedItems, st.errorList, st.pushedDocs,
           st.visits ++ [⟨u, skip, updStart s csd⟩]⟩ u hx1
        rw [hres] at h3
        exact h3
      rw [hres]
      cases f with
      | none => dsimp only; (repeat' split) <;> exact h2
      | some e => exact h2
    · simp only [if_neg hhc]
      (repeat' split) <;> exact hx1

/-- Running any subtree with the skip flag set neither pushes a document
nor records an error nor lets an exception escape, and every visit it
performs carries the skip flag. -/
theorem skip_run_pair :
    (∀ (i : Item) (fails : String → Bool) (ck : String) (ta : Option Int)
        (csd : Option Int) (st : WalkState),
      ((index_item fails ck ta i csd true st).1.pushedDocs = st.pushedDocs ∧
       (index_item fails ck ta i csd true st).1.errorList = st.errorList ∧
       (index_item fails ck ta i csd true st).2 = none ∧
       (∀ v ∈ (index_item fails ck ta i csd true st).1.visits,
         v ∈ st.visits ∨ v.skip = true))) ∧
    (∀ (l : List Item) (fails : String → Bool) (ck : String) (ta : Option Int)
        (csd : Option Int) (st : WalkState),
      ((index_items fails ck ta l csd true st).1.pushedDocs = st.pushedDocs ∧
       (index_items fails ck ta l csd true st).1.errorList = st.errorList ∧
       (index_items fails ck ta l csd true st).2 = none ∧
       (∀ v ∈ (index_items fails ck ta l csd true st).1.visits,
         v ∈ st.visits ∨ v.skip = true))) := by
  apply item_mutual_induction
  · intro u ix hc s se d ch ih fails ck ta csd st
    rw [index_item]
    by_cases h : (!ix && !hc) = true
    · simp only [h, if_true]
      exact ⟨trivial, trivial, trivial, fun v hv => Or.inl hv⟩
    · simp only [h, if_false, Bool.true_or]
      by_cases hhc : hc = true
      · simp only [hhc, if_true]
        obtain ⟨h1, h2, h3, h4⟩ := ih fails ck ta (updStart s csd)
          ⟨addId u st.indexedItems, st.errorList, st.pushedDocs,
           st.visits ++ [⟨u, true, updStart s csd⟩]⟩
        rcases hres : index_items fails ck ta ch (updStart s csd) true
            ⟨addId u st.indexedItems, st.errorList, st.pushedDocs,
             st.visits ++ [⟨u, true, updStart s csd⟩]⟩ with ⟨st2, f⟩
        rw [hres] at h1 h2 h3 h4
        simp only at h1 h2 h3 h4
        subst h3
        simp only [hres]
        refine ⟨h1, h2, rfl, ?_⟩
        intro v hv
        rcases h4 v hv with hv' | hv'
        · rcases List.mem_append.1 hv' with hv'' | hv''
          · exact Or.inl hv''
          · simp at hv''
            subst hv''
            exact Or.inr rfl
        · exact Or.inr hv'
      · simp only [if_neg hhc]
        refine ⟨rfl, rfl, rfl, ?_⟩
        intro v hv
        rcases List.mem_append.1 hv with hv' | hv'
        · exact Or.inl hv'
        · simp at hv'
          subst hv'
          exact Or.inr rfl
  · intro fails ck ta csd st
    rw [index_items]
    exact ⟨rfl, rfl, rfl, fun v hv => Or.inl hv⟩
  · intro i l ihi ihl fails ck ta csd st
    rw [index_items]
    obtain ⟨h1, h2, h3, h4⟩ := ihi fails ck ta csd st
    rcases hres : index_item fails ck ta i csd true st with ⟨st', f⟩
    rw [hres] at h1 h2 h3 h4
    simp only at h1 h2 h3 h4
    subst h3
    obtain ⟨g1, g2, g3, g4⟩ := ihl fails ck ta csd st'
    refine ⟨by rw [g1, h1], by rw [g2, h2], g3, ?_⟩
    intro v hv
    rcases g4 v hv with hv' | hv'
    · exact h4 v hv'
    · exact Or.inr hv'

/-- `optLe` is reflexive. -/
theorem optLe_refl (a : Option Int) : optLe a a = true := by
  cases a <;> simp [optLe]

/-- `optLe` is transitive. -/
theorem optLe_trans {a b c : Option Int} (h1 : optLe a b = true)
    (h2 : optLe b c = true) : optLe a c = true := by
  cases a <;> cases b <;> cases c <;> simp [optLe] at h1 h2 ⊢ <;> omega

/-- Applying a node's own `start` never moves the effective start date
backwards. -/
theorem optLe_updStart (s c : Option Int) : optLe c (updStart s c) = true := by
  cases s with
  | none => simp [updStart, optLe_refl]
  | some sv =>
    cases c with
    | none => simp [updStart, optLe]
    | some cv =>
      simp only [updStart]
      by_cases h : sv > cv
      · simp only [h, if_true, optLe, decide_eq_true_eq]
        omega
      · simp only [h, if_false, optLe, decide_eq_true_eq]
        exact le_refl cv

/-- Every visit performed while walking a subtree carries an effective
start date at least the inherited one: the effective start date is
non-decreasing downwards. -/
theorem effStart_mono_pair :
    (∀ (i : Item) (fails : String → Bool) (ck : String) (ta : Option Int)
        (csd : Option Int) (skip : Bool) (st : WalkState),
      ∀ v ∈ (index_item fails ck ta i csd skip st).1.visits,
        v ∈ st.visits ∨ optLe csd v.effStart = true) ∧
    (∀ (l : List Item) (fails : String → Bool) (ck : String) (ta : Option Int)
        (csd : Option Int) (skip : Bool) (st : WalkState),
      ∀ v ∈ (index_items fails ck ta l csd skip st).1.visits,
        v ∈ st.visits ∨ optLe csd v.effStart = true) := by
  apply item_mutual_induction
  · intro u ix hc s se d ch ih fails ck ta csd skip st
    rw [index_item]
    split
    · exact fun v hv => Or.inl hv
    · by_cases hhc : hc = true
      · simp only [hhc, if_true]
        rcases hres : index_items fails ck ta ch (updStart s csd)
            (skip || staleCheck ta se)
            ⟨addId u st.indexedItems, st.errorList, st.pushedDocs,
             st.visits ++ [⟨u, skip, updStart s csd⟩]⟩ with ⟨st2, f⟩
        have key : ∀ v ∈ st2.visits, v ∈ st.visits ∨ optLe csd v.effStart = true := by
          intro v hv
          have h3 := ih fails ck ta (updStart s csd) (skip || staleCheck ta se)
            ⟨addId u st.indexedItems, st.errorList, st.pushedDocs,
             st.visits ++ [⟨u, skip, updStart s csd⟩]⟩ v
          rw [hres] at h3
          rcases h3 hv with hv' | hv'
          · rcases List.mem_append.1 hv' with hv'' | hv''
            · exact Or.inl hv''
            · simp at hv''
              subst hv''
              exact Or.inr (optLe_updStart s csd)
          · exact Or.inr (optLe_trans (optLe_updStart s csd) hv')
        rw [hres]
        cases f with
        | none => dsimp only; (repeat' split) <;> exact key
        | some e => exact key
      · simp only [if_neg hhc]
        have key : ∀ v ∈ st.visits ++ [(⟨u, skip, updStart s csd⟩ : Visit)],
            v ∈ st.visits ∨ optLe csd v.effStart = true := by
          intro v hv
          rcases List.mem_append.1 hv with hv' | hv'
          · exact Or.inl hv'
          · simp at hv'
            subst hv'
            exact Or.inr (optLe_updStart s csd)
        (repeat' split) <;> exact key
  · intro fails ck ta csd skip st
    rw [index_items]
    exact fun v hv => Or.inl hv
  · intro i l ihi ihl fails ck ta csd skip st
    rw [index_items]
    rcases hres : index_item fails ck ta i csd skip st with ⟨st', f⟩
    have hhead : ∀ v ∈ st'.visits, v ∈ st.visits ∨ optLe csd v.effStart = true := by
      intro v hv
      have := ihi fails ck ta csd skip st v
      rw [hres] at this
      exact this hv
    cases f with
    | none =>
      intro v hv
      rcases ihl fails ck ta csd skip st' v hv with hv' | hv'
      · exact hhead v hv'
      · exact Or.inr hv'
    | some e => exact hhead

/-- Folding `searcher.remove` over a list of ids deletes exactly the
documents whose id is in that list. -/
theorem foldl_engineRemove (l : List String) (e : Engine) :
    (l.foldl engineRemove e).docs = e.docs.filter (fun d => !l.contains d.id) := by
  induction l generalizing e with
  | nil => simp
  | cons rid rest ih =>
    rw [List.foldl_cons, ih]
    show (engineRemove e rid).docs.filter _ = _
    rw [engineRemove]
    simp only [List.filter_filter]
    apply List.filter_congr
    intro d _
    simp only [List.contains_cons, Bool.not_or, bne]
    rw [Bool.and_comm]

/-- Membership in the exclusion-set search result. -/
theorem mem_engineSearchIds {x : String} {e : Engine} {ck : String}
    {ids : List String} :
    x ∈ engineSearchIds e ck ids ↔
      ∃ d ∈ e.docs, (d.course == ck && !ids.contains d.id) = true ∧ d.id = x := by
  simp [engineSearchIds, List.mem_filter]
  tauto

/-- Bool equality from propositional equivalence. -/
theorem bool_eq_of_iff {a b : Bool} (h : a = true ↔ b = true) : a = b := by
  cases a <;> cases b <;> simp_all

/-- C1.  Reconciliation deletes exactly the engine documents whose `course`
field equals the course key and whose id is outside the indexed-id set
(when stored ids are pairwise distinct, as the engine's overwrite-by-id
semantics guarantees), and a document whose id is in the indexed-id set is
never deleted, even with duplicate ids in the store. -/
theorem C1_reconciliation_exact (e : Engine) (ck : String) (ids : List String) :
    ((e.docs.map EngineDoc.id).Nodup →
      (remove_deleted_items e ck ids).docs =
        e.docs.filter (fun d => !(d.course == ck && !ids.contains d.id))) ∧
    (∀ d ∈ e.docs, ids.contains d.id = true →
      d ∈ (remove_deleted_items e ck ids).docs) := by
  constructor
  · intro hnd
    rw [remove_deleted_items, foldl_engineRemove]
    apply List.filter_congr
    intro d hd
    apply congrArg
    apply bool_eq_of_iff
    constructor
    · intro hcont
      have hmem : d.id ∈ engineSearchIds e ck ids := by
        simpa using hcont
      obtain ⟨d', hd', hmatch, heq⟩ := mem_engineSearchIds.1 hmem
      have : d' = d := List.inj_on_of_nodup_map hnd hd' hd heq
      rw [← this]
      exact hmatch
    · intro hmatch
      have hmem : d.id ∈ engineSearchIds e ck ids :=
        mem_engineSearchIds.2 ⟨d, hd, hmatch, rfl⟩
      simpa using hmem
  · intro d hd hc
    rw [remove_deleted_items, foldl_engineRemove, List.mem_filter]
    refine ⟨hd, ?_⟩
    simp only [Bool.not_eq_true']
    by_contra hcont
    simp only [Bool.not_eq_false] at hcont
    have hmem : d.id ∈ engineSearchIds e ck ids := by simpa using hcont
    obtain ⟨d', _, hmatch, heq⟩ := mem_engineSearchIds.1 hmem
    rw [heq, hc] at hmatch
    simp at hmatch

/-- C1 witness: on a concrete engine holding documents "keep" and "gone"
for course "c" and "x" for another course, with indexed-id set
including "keep" (pushed) and "skipped" (recorded but never pushed),
reconciliation keeps "keep". -/
theorem C1_reconciliation_exact_witness :
    (remove_deleted_items sampleEngine "c" ["keep", "skipped"]).docs =
      sampleEngine.docs.filter
        (fun d => !(d.course == "c" && !(["keep", "skipped"].contains d.id))) ∧
    (⟨"c", "keep"⟩ : EngineDoc) ∈
      (remove_deleted_items sampleEngine "c" ["keep", "skipped"]).docs :=
  ⟨(C1_reconciliation_exact sampleEngine "c" ["keep", "skipped"]).1 (by decide),
   (C1_reconciliation_exact sampleEngine "c" ["keep", "skipped"]).2
     ⟨"c", "keep"⟩ (by decide) (by decide)⟩

/-- Every candidate id of a subtree walked with the skip flag set is
recorded in `indexed_items`. -/
theorem skip_records_pair :
    (∀ (i : Item) (fails : String → Bool) (ck : String) (ta : Option Int)
        (csd : Option Int) (st : WalkState) (x : String),
      x ∈ candidateIds i →
        x ∈ (index_item fails ck ta i csd true st).1.indexedItems) ∧
    (∀ (l : List Item) (fails : String → Bool) (ck : String) (ta : Option Int)
        (csd : Option Int) (st : WalkState) (x : String),
      x ∈ candidateIdsList l →
        x ∈ (index_items fails ck ta l csd true st).1.indexedItems) := by
  apply item_mutual_induction
  · intro u ix hc s se d ch ih fails ck ta csd st x hx
    rw [candidateIds] at hx
    rw [index_item]
    by_cases h : (!ix && !hc) = true
    · simp [h] at hx
    · simp only [h, if_false] at hx
      simp only [h, if_false, Bool.true_or]
      by_cases hhc : hc = true
      · simp only [hhc, if_true] at hx ⊢
        rcases hres : index_items fails ck ta ch (updStart s csd) true
            ⟨addId u st.indexedItems, st.errorList, st.pushedDocs,
             st.visits ++ [⟨u, true, updStart s csd⟩]⟩ with ⟨st2, f⟩
        have hmem : x ∈ st2.indexedItems := by
          rcases List.mem_cons.1 hx with rfl | hx'
          · have h0 : x ∈ addId x st.indexedItems := addId_self x st.indexedItems
            have h1 := indexed_mono_pair.2 ch fails ck ta (updStart s csd) true
              ⟨addId x st.indexedItems, st.errorList, st.pushedDocs,
               st.visits ++ [⟨x, true, updStart s csd⟩]⟩ x h0
            rw [hres] at h1
            exact h1
          · have h1 := ih fails ck ta (updStart s csd)
              ⟨addId u st.indexedItems, st.errorList, st.pushedDocs,
               st.visits ++ [⟨u, true, updStart s csd⟩]⟩ x hx'
            rw [hres] at h1
            exact h1
        rw [hres]
        cases f with
        | none => exact hmem
        | some e => exact hmem
      · simp only [if_neg hhc] at hx ⊢
        simp at hx
        subst hx
        exact addId_self x st.indexedItems
  · intro fails ck ta csd st x hx
    rw [candidateIdsList] at hx
    simp at hx
  · intro i l ihi ihl fails ck ta csd st x hx
    rw [candidateIdsList] at hx
    rw [index_items]
    rcases hres : index_item fails ck ta i csd true st with ⟨st', f⟩
    have hf := (skip_run_pair.1 i fails ck ta csd st).2.2.1
    rw [hres] at hf
    simp only at hf
    subst hf
    rcases List.mem_append.1 hx with hx' | hx'
    · have h1 := ihi fails ck ta csd st x hx'
      rw [hres] at h1
      exact indexed_mono_pair.2 l fails ck ta csd true st' x h1
    · exact ihl fails ck ta csd st' x hx'

/-- C2.  A candidate node's id is added to `indexed_items` on every visit,
whatever the skip flag and even when an exception later escapes the
subtree walk; a node that is neither indexable nor has children is pruned:
the walk returns the state unchanged (no id, no document, no visit, no
recursion). -/
theorem C2_candidate_registered_pruned_ignored (fails : String → Bool)
    (ck : String) (ta : Option Int) (i : Item) (csd : Option Int)
    (skip : Bool) (st : WalkState) :
    (i.isIndexable = false ∧ i.hasChildren = false →
      index_item fails ck ta i csd skip st = (st, none)) ∧
    (i.isIndexable = true ∨ i.hasChildren = true →
      i.usageId ∈ (index_item fails ck ta i csd skip st).1.indexedItems) := by
  constructor
  · rintro ⟨h1, h2⟩
    rcases i with ⟨u, ix, hc, s, se, d, ch⟩
    simp only [Item.isIndexable] at h1
    simp only [Item.hasChildren] at h2
    subst h1
    subst h2
    rw [index_item]
    simp
  · exact candidate_mem_indexed fails ck ta i csd skip st

/-- C2 witness: a non-indexable childless node is ignored entirely, and a
staleness-skipped visit still registers the id ("parent" only has stale
descendants; "block-a" is visited with the skip flag set yet lands in the
set). -/
theorem C2_candidate_registered_pruned_ignored_witness :
    index_item noFails "c" none noIdxLeaf none false emptyState =
      (emptyState, none) ∧
    (Item.node "block-a" true false none 0
        (Except.ok (some [("title", "x")])) [] : Item).usageId ∈
      (index_item noFails "c" (some 90)
        (Item.node "block-a" true false none 0
          (Except.ok (some [("title", "x")])) []) none true emptyState).1.indexedItems :=
  ⟨(C2_candidate_registered_pruned_ignored noFails "c" none noIdxLeaf none
      false emptyState).1 ⟨rfl, rfl⟩,
   (C2_candidate_registered_pruned_ignored noFails "c" (some 90)
      (Item.node "block-a" true false none 0
        (Except.ok (some [("title", "x")])) []) none true emptyState).2
     (Or.inl rfl)⟩

/-- C6.  Walking any node with the skip flag set performs no document push
and records no error anywhere in its subtree, no exception escapes, and
every visit the subtree walk performs (in particular every descendant's)
carries the skip flag. -/
theorem C6_skip_monotone_downward (fails : String → Bool) (ck : String)
    (ta : Option Int) (i : Item) (csd : Option Int) (st : WalkState) :
    (index_item fails ck ta i csd true st).2 = none ∧
    (index_item fails ck ta i csd true st).1.pushedDocs = st.pushedDocs ∧
    (index_item fails ck ta i csd true st).1.errorList = st.errorList ∧
    (∀ v ∈ (index_item fails ck ta i csd true st).1.visits,
      v ∈ st.visits ∨ v.skip = true) := by
  obtain ⟨h1, h2, h3, h4⟩ := skip_run_pair.1 i fails ck ta csd st
  exact ⟨h3, h1, h2, h4⟩

/-- C6 witness: walking `staleParent` with the skip flag set pushes
nothing, and its child visit, taken from the trace, carries the skip
flag. -/
theorem C6_skip_monotone_downward_witness :
    (index_item noFails "c" none staleParent none true emptyState).2 = none ∧
    ((⟨"block-a", true, none⟩ : Visit) ∈ emptyState.visits ∨
      (⟨"block-a", true, none⟩ : Visit).skip = true) :=
  ⟨(C6_skip_monotone_downward noFails "c" none staleParent none emptyState).1,
   (C6_skip_monotone_downward noFails "c" none staleParent none emptyState).2.2.2
     ⟨"block-a", true, none⟩ (by decide)⟩

/-- C7.  The effective start date threaded to children is
`max(inherited, node.start)` when the node's own start is later and the
inherited value otherwise, and every visit of a subtree walk carries an
effective start date at least the inherited one, so the effective start
date is non-decreasing along every root-to-leaf path. -/
theorem C7_effective_start_monotone (s c : Int) (fails : String → Bool)
    (ck : String) (ta : Option Int) (i : Item) (csd : Option Int)
    (skip : Bool) (st : WalkState) (v : Visit) :
    updStart (some s) (some c) = some (max s c) ∧
    updStart none (some c) = some c ∧
    updStart (some s) none = some s ∧
    updStart none none = none ∧
    (v ∈ (index_item fails ck ta i csd skip st).1.visits →
      v ∈ st.visits ∨ optLe csd v.effStart = true) := by
  refine ⟨?_, rfl, rfl, rfl, effStart_mono_pair.1 i fails ck ta csd skip st v⟩
  simp only [updStart]
  by_cases h : s > c
  · rw [if_pos h, max_eq_left (le_of_lt h)]
  · rw [if_neg h, max_eq_right (not_lt.1 h)]

/-- C7 witness: on a leaf with `start = 7` visited with inherited date 3,
the update rule yields `max` and the recorded visit's effective date
dominates the inherited one. -/
theorem C7_effective_start_monotone_witness :
    updStart (some 3) (some 5) = some (max 3 5) ∧
    ((⟨"s1", false, some 7⟩ : Visit) ∈ emptyState.visits ∨
      optLe (some 3) (⟨"s1", false, some 7⟩ : Visit).effStart = true) :=
  ⟨(C7_effective_start_monotone 3 5 noFails "c" none startLeaf (some 3) false
      emptyState ⟨"s1", false, some 7⟩).1,
   (C7_effective_start_monotone 3 5 noFails "c" none startLeaf (some 3) false
      emptyState ⟨"s1", false, some 7⟩).2.2.2.2 (by decide)⟩

/-- C3 counterexample: `staleParent` has `subtree_edited_on = 0` and is
visited with `triggered_at = 90`, a 90-second gap beyond the 60-second
threshold.  The claim says the node itself is then skipped with no
document built or pushed for it; the code pushes the node's own document
(the staleness check only sets the children's skip flag), while the
child "block-a" is indeed skipped with its id still recorded. -/
theorem C3_counterexample :
    (index_item noFails "c" (some 90) staleParent none false
        emptyState).1.pushedDocs =
      [⟨"c", "parent", [("t", "y")], none⟩] ∧
    (index_item noFails "c" (some 90) staleParent none false
        emptyState).1.indexedItems = ["parent", "block-a"] := by
  exact ⟨rfl, rfl⟩

/-- C3 (amended).  When `(triggered_at - node.subtree_edited_on)` exceeds
the 60-second threshold, every *descendant* of the node is visited with
the skip flag set and pushes no document (all candidate descendant ids
are still recorded), but the node itself is not skipped by its own
staleness check: any document added by the walk of this node belongs to
the node itself. -/
theorem C3_stale_skips_descendants_only (fails : String → Bool) (ck : String)
    (t : Int) (u : String) (ix : Bool) (s : Option Int) (se : Int)
    (d : Except String (Option (List (String × String)))) (ch : List Item)
    (csd : Option Int) (st : WalkState) (h : t - se > REINDEX_AGE) :
    (∀ dd ∈ (index_item fails ck (some t) (Item.node u ix true s se d ch)
        csd false st).1.pushedDocs, dd ∈ st.pushedDocs ∨ dd.id = u) ∧
    (∀ v ∈ (index_item fails ck (some t) (Item.node u ix true s se d ch)
        csd false st).1.visits, v ∈ st.visits ∨ v.id = u ∨ v.skip = true) ∧
    (∀ x ∈ candidateIdsList ch,
      x ∈ (index_item fails ck (some t) (Item.node u ix true s se d ch)
        csd false st).1.indexedItems) := by
  have hst : staleCheck (some t) se = true := by
    simp only [staleCheck, decide_eq_true_eq]
    exact h
  rw [index_item]
  have hcond : (!ix && !true) = false := by simp
  simp only [hcond, Bool.false_eq_true, if_false, if_true, Bool.false_or, hst]
  rcases hres : index_items fails ck (some t) ch (updStart s csd) true
      ⟨addId u st.indexedItems, st.errorList, st.pushedDocs,
       st.visits ++ [⟨u, false, updStart s csd⟩]⟩ with ⟨st2, f⟩
  obtain ⟨hd2, he2, hf2, hv2⟩ := skip_run_pair.2 ch fails ck (some t)
    (updStart s csd)
    ⟨addId u st.indexedItems, st.errorList, st.pushedDocs,
     st.visits ++ [⟨u, false, updStart s csd⟩]⟩
  rw [hres] at hd2 he2 hf2 hv2
  simp only at hd2 he2 hf2 hv2
  subst hf2
  have hvis : ∀ v ∈ st2.visits, v ∈ st.visits ∨ v.id = u ∨ v.skip = true := by
    intro v hv
    rcases hv2 v hv with hv' | hv'
    · rcases List.mem_append.1 hv' with hv'' | hv''
      · exact Or.inl hv''
      · simp at hv''
        subst hv''
        exact Or.inr (Or.inl rfl)
    · exact Or.inr (Or.inr hv')
  have hrec : ∀ x ∈ candidateIdsList ch, x ∈ st2.indexedItems := by
    intro x hx
    have h1 := skip_records_pair.2 ch fails ck (some t) (updStart s csd)
      ⟨addId u st.indexedItems, st.errorList, st.pushedDocs,
       st.visits ++ [⟨u, false, updStart s csd⟩]⟩ x hx
    rw [hres] at h1
    exact h1
  rw [hres]
  refine ⟨?_, ?_, ?_⟩ <;> dsimp only <;> (repeat' split) <;>
    first
    | (intro dd hdd
       rcases List.mem_append.1 hdd with hdd' | hdd'
       · rw [hd2] at hdd'
         exact Or.inl hdd'
       · simp at hdd'
         subst hdd'
         exact Or.inr rfl)
    | (intro dd hdd
       rw [hd2] at hdd
       exact Or.inl hdd)
    | exact hvis
    | exact hrec

/-- C3 witness: instantiating the amended staleness theorem on
`staleParent` with `triggered_at = 90`: the pushed document is the stale
node's own, and the skipped child's id is recorded. -/
theorem C3_stale_skips_descendants_only_witness :
    ((⟨"c", "parent", [("t", "y")], none⟩ : Doc) ∈ emptyState.pushedDocs ∨
      (⟨"c", "parent", [("t", "y")], none⟩ : Doc).id = "parent") ∧
    "block-a" ∈ (index_item noFails "c" (some 90)
      (Item.node "parent" true true none 0 (Except.ok (some [("t", "y")]))
        [scenarioALeaf]) none false emptyState).1.indexedItems :=
  ⟨(C3_stale_skips_descendants_only noFails "c" 90 "parent" true none 0
      (Except.ok (some [("t", "y")])) [scenarioALeaf] none emptyState
      (by decide)).1 ⟨"c", "parent", [("t", "y")], none⟩ (by decide),
   (C3_stale_skips_descendants_only noFails "c" 90 "parent" true none 0
      (Except.ok (some [("t", "y")])) [scenarioALeaf] none emptyState
      (by decide)).2.2 "block-a" (by decide)⟩

/-- C5 counterexample: the walk over siblings `[badDictItem, goodItem]`,
where the first node's `index_dictionary()` call raises while building its
document.  The claim says the failure is caught inside the walk, an
ErrorRecord referencing the node is appended, and the siblings still run;
the code lets the exception escape (`index_dictionary()` sits outside the
inner `try`): no error is recorded (`error_list` stays empty) and the
sibling "good" is never visited — no id, no visit, no document. -/
theorem C5_counterexample :
    index_items noFails "c" none [badDictItem, goodItem] none false emptyState =
      (⟨["bad"], [], [], [⟨"bad", false, none⟩]⟩, some "boom") := by
  exact rfl

/-- C5 (amended).  A failure raised by `searcher.index` while *sending* a
node's document is caught inside the walk: an ErrorRecord referencing the
node is appended, no exception escapes, and the remaining siblings are
still processed.  (A failure raised by the node's own `index_dictionary()`
call while *building* the document is not covered: it escapes the walk.) -/
theorem C5_send_failure_isolated (fails : String → Bool) (ck : String)
    (ta : Option Int) (u : String) (hc : Bool) (s : Option Int) (se : Int)
    (dct : List (String × String)) (ch : List Item) (csd : Option Int)
    (st : WalkState) (rest : List Item) (st2 : WalkState)
    (hf : fails u = true) (hd : dct.isEmpty = false)
    (hch : (if hc = true then
        index_items fails ck ta ch (updStart s csd) (staleCheck ta se)
          ⟨addId u st.indexedItems, st.errorList, st.pushedDocs,
           st.visits ++ [⟨u, false, updStart s csd⟩]⟩
      else
        (⟨addId u st.indexedItems, st.errorList, st.pushedDocs,
          st.visits ++ [⟨u, false, updStart s csd⟩]⟩, none)) = (st2, none)) :
    index_item fails ck ta (Item.node u true hc s se (Except.ok (some dct)) ch)
        csd false st =
      ({ st2 with errorList := st2.errorList ++ [couldNotIndexMsg u] }, none) ∧
    index_items fails ck ta
        (Item.node u true hc s se (Except.ok (some dct)) ch :: rest) csd false st =
      index_items fails ck ta rest csd false
        { st2 with errorList := st2.errorList ++ [couldNotIndexMsg u] } := by
  have hmain : index_item fails ck ta
      (Item.node u true hc s se (Except.ok (some dct)) ch) csd false st =
        ({ st2 with errorList := st2.errorList ++ [couldNotIndexMsg u] }, none) := by
    rw [index_item]
    simp only [Bool.not_true, Bool.false_and, Bool.false_eq_true, if_false,
      Bool.false_or]
    rw [hch]
    simp [dictTruthy, hd, hf]
  refine ⟨hmain, ?_⟩
  rw [index_items, hmain]

/-- C5 witness: a leaf whose push raises, followed by a healthy sibling:
the error is recorded with the node's location and the traversal equation
hands the updated state to the rest of the list. -/
theorem C5_send_failure_isolated_witness :
    index_item (failsOn ["f1"]) "c" none sendFailLeaf none false emptyState =
      (⟨["f1"], [couldNotIndexMsg "f1"], [], [⟨"f1", false, none⟩]⟩, none) ∧
    index_items (failsOn ["f1"]) "c" none [sendFailLeaf, goodItem] none false
        emptyState =
      index_items (failsOn ["f1"]) "c" none [goodItem] none false
        ⟨["f1"], [couldNotIndexMsg "f1"], [], [⟨"f1", false, none⟩]⟩ :=
  C5_send_failure_isolated (failsOn ["f1"]) "c" none "f1" false none 0
    [("a", "b")] [] none emptyState [goodItem]
    ⟨["f1"], [], [], [⟨"f1", false, none⟩]⟩ (by decide) (by decide) (by decide)

/-- The final `raise`-or-`return` step, characterised. -/
theorem finishResult_cases (roe : Bool) (errs : List String) :
    (finishResult roe errs = IndexResult.raisedError errs ∨
     finishResult roe errs = IndexResult.returned (some 0)) ∧
    (finishResult roe errs = IndexResult.raisedError errs ↔
      (roe = true ∧ errs ≠ [])) ∧
    (∀ l, finishResult roe errs = IndexResult.raisedError l → l = errs) ∧
    (∀ c, finishResult roe errs = IndexResult.returned c → c = some 0) := by
  by_cases h : (roe && !errs.isEmpty) = true
  · have hfin : finishResult roe errs = IndexResult.raisedError errs := by
      unfold finishResult
      rw [if_pos h]
    have hp : roe = true ∧ errs ≠ [] := by
      have h' := h
      rw [Bool.and_eq_true] at h'
      rcases h' with ⟨h1, h2⟩
      refine ⟨h1, ?_⟩
      rw [Bool.not_eq_true'] at h2
      intro hnil
      rw [hnil] at h2
      simp at h2
    refine ⟨Or.inl hfin, ⟨fun _ => hp, fun _ => hfin⟩, ?_, ?_⟩
    · intro l hl
      rw [hfin] at hl
      injection hl with h'
      exact h'.symm
    · intro c hc
      rw [hfin] at hc
      exact IndexResult.noConfusion hc
  · have hfin : finishResult roe errs = IndexResult.returned (some 0) := by
      unfold finishResult
      rw [if_neg h]
    have hp : ¬(roe = true ∧ errs ≠ []) := by
      rintro ⟨h1, h2⟩
      apply h
      rw [h1, Bool.true_and, Bool.not_eq_true']
      simpa using h2
    refine ⟨Or.inr hfin, ⟨?_, ?_⟩, ?_, ?_⟩
    · intro hx
      rw [hfin] at hx
      exact IndexResult.noConfusion hx
    · intro hx
      exact absurd hx hp
    · intro l hl
      rw [hfin] at hl
      exact IndexResult.noConfusion hl
    · intro c hc
      rw [hfin] at hc
      injection hc with h'
      exact h'.symm

/-- C4 counterexample: a tree-store failure (`modulestore.get_course`
raising) at concrete input.  The claim says such a failure is caught at
the top level, recorded as a single generic ErrorRecord, and `index_course`
then returns or raises the aggregated SearchIndexingError; the code places
`get_course` before the `try` block, so the fault propagates uncaught and
no ErrorRecord is recorded. -/
theorem C4_counterexample :
    (index_course true sampleEngine noFails
        (Except.error "tree store failure") "c" true none).result =
      IndexResult.uncaught "tree store failure" ∧
    (index_course true sampleEngine noFails
        (Except.error "tree store failure") "c" true none).walk.errorList = [] := by
  exact ⟨rfl, rfl⟩

/-- C4 (amended).  A failure of the initial `get_course` fetch propagates
uncaught (it sits before the `try` block); any failure escaping the walk
itself is caught at the top level, recorded as the single generic
ErrorRecord, and `index_course` then returns normally or raises the
aggregated error. -/
theorem C4_fetch_uncaught_walk_caught (eng : Engine) (fails : String → Bool)
    (gc : Except String Item) (ck : String) (roe : Bool) (ta : Option Int)
    (course : Item) (e : String) :
    (gc = Except.error e →
      (index_course true eng fails gc ck roe ta).result =
        IndexResult.uncaught e) ∧
    (gc = Except.ok course →
      ((∃ c, (index_course true eng fails gc ck roe ta).result =
          IndexResult.returned c) ∨
       (∃ l, (index_course true eng fails gc ck roe ta).result =
          IndexResult.raisedError l))) ∧
    (gc = Except.ok course →
      ∀ st e2, index_items fails ck ta course.children course.start false
          emptyState = (st, some e2) →
        (index_course true eng fails gc ck roe ta).walk.errorList =
          st.errorList ++ [generalErrorMsg]) := by
  refine ⟨?_, ?_, ?_⟩
  · rintro rfl
    rfl
  · rintro rfl
    rw [index_course]
    simp only [Bool.not_true, Bool.false_eq_true, if_false]
    rcases hW : index_items fails ck ta course.children course.start false
      emptyState with ⟨st, f⟩
    cases f with
    | some e2 =>
      dsimp only
      rcases (finishResult_cases roe (st.errorList ++ [generalErrorMsg])).1
        with h | h
      · exact Or.inr ⟨st.errorList ++ [generalErrorMsg], h⟩
      · exact Or.inl ⟨some 0, h⟩
    | none =>
      dsimp only
      rcases (finishResult_cases roe st.errorList).1 with h | h
      · exact Or.inr ⟨st.errorList, h⟩
      · exact Or.inl ⟨some 0, h⟩
  · rintro rfl
    intro st e2 hW
    rw [index_course]
    simp only [Bool.not_true, Bool.false_eq_true, if_false]
    rw [hW]

/-- C4 witness: a fetch failure surfaces uncaught; a healthy course
returns or raises; a course whose only child's `index_dictionary()` raises
completes with exactly the single generic ErrorRecord. -/
theorem C4_fetch_uncaught_walk_caught_witness :
    (index_course true sampleEngine noFails (Except.error "boom") "c" false
        none).result = IndexResult.uncaught "boom" ∧
    ((∃ c, (index_course true sampleEngine noFails (Except.ok scenarioACourse)
        "c" true none).result = IndexResult.returned c) ∨
     (∃ l, (index_course true sampleEngine noFails (Except.ok scenarioACourse)
        "c" true none).result = IndexResult.raisedError l)) ∧
    (index_course true sampleEngine noFails (Except.ok badCourse) "c" false
        none).walk.errorList = [] ++ [generalErrorMsg] :=
  ⟨(C4_fetch_uncaught_walk_caught sampleEngine noFails (Except.error "boom")
      "c" false none scenarioACourse "boom").1 rfl,
   (C4_fetch_uncaught_walk_caught sampleEngine noFails
      (Except.ok scenarioACourse) "c" true none scenarioACourse "x").2.1 rfl,
   (C4_fetch_uncaught_walk_caught sampleEngine noFails (Except.ok badCourse)
      "c" false none badCourse "x").2.2 rfl
     ⟨["bad"], [], [], [⟨"bad", false, none⟩]⟩ "boom" rfl⟩

/-- C8.  With a search engine present and `get_course` succeeding,
`index_course` raises the aggregated `SearchIndexingError` if and only if
`raise_on_error` holds and the accumulated error list is non-empty; any
raised aggregated error carries exactly the full final error list; in
every other case the (never-incremented) count is returned; and when the
walk completes without an escaping exception, the engine the caller
observes is the reconciled one, whether or not the aggregated error is
raised afterwards. -/
theorem C8_aggregate_raise_iff (eng : Engine) (fails : String → Bool)
    (course : Item) (ck : String) (roe : Bool) (ta : Option Int)
    (r : IndexResult) (en : Engine) (w : WalkState)
    (ho : index_course true eng fails (Except.ok course) ck roe ta = ⟨r, en, w⟩) :
    (r = IndexResult.raisedError w.errorList ∨
     r = IndexResult.returned (some 0)) ∧
    (r = IndexResult.raisedError w.errorList ↔
      (roe = true ∧ w.errorList ≠ [])) ∧
    (∀ l, r = IndexResult.raisedError l → l = w.errorList) ∧
    (∀ st, index_items fails ck ta course.children course.start false
        emptyState = (st, none) →
      en = remove_deleted_items (st.pushedDocs.foldl engineIndex eng) ck
        st.indexedItems) := by
  rw [index_course] at ho
  simp only [Bool.not_true, Bool.false_eq_true, if_false] at ho
  rcases hW : index_items fails ck ta course.children course.start false
    emptyState with ⟨st, f⟩
  rw [hW] at ho
  cases f with
  | some e =>
    simp only [Outcome.mk.injEq] at ho
    rcases ho with ⟨hr, hen, hw⟩
    subst hr
    subst hen
    subst hw
    refine ⟨(finishResult_cases roe (st.errorList ++ [generalErrorMsg])).1,
      (finishResult_cases roe (st.errorList ++ [generalErrorMsg])).2.1,
      (finishResult_cases roe (st.errorList ++ [generalErrorMsg])).2.2.1, ?_⟩
    intro st' h'
    simp at h'
  | none =>
    simp only [Outcome.mk.injEq] at ho
    rcases ho with ⟨hr, hen, hw⟩
    subst hr
    subst hen
    subst hw
    refine ⟨(finishResult_cases roe st.errorList).1,
      (finishResult_cases roe st.errorList).2.1,
      (finishResult_cases roe st.errorList).2.2.1, ?_⟩
    intro st' h'
    injection h' with ha hb
    rw [ha]

/-- C8 witness: a course whose only child's push raises, with
`raise_on_error = true`: the aggregated error is raised and carries the
final error list, and the engine still reflects reconciliation. -/
theorem C8_aggregate_raise_iff_witness :
    (index_course true sampleEngine (failsOn ["f1"]) (Except.ok errCourse)
        "c" true none).result =
      IndexResult.raisedError
        (index_course true sampleEngine (failsOn ["f1"]) (Except.ok errCourse)
          "c" true none).walk.errorList :=
  (C8_aggregate_raise_iff sampleEngine (failsOn ["f1"]) errCourse "c" true none
    (index_course true sampleEngine (failsOn ["f1"]) (Except.ok errCourse)
      "c" true none).result
    (index_course true sampleEngine (failsOn ["f1"]) (Except.ok errCourse)
      "c" true none).engine
    (index_course true sampleEngine (failsOn ["f1"]) (Except.ok errCourse)
      "c" true none).walk rfl).2.1.mpr ⟨rfl, by decide⟩

/-- C9.  With a search engine present, whenever `index_course` returns
normally the returned count is the initialized 0 — it is never incremented
per pushed document.  In particular on the Scenario A course (one
indexable child, one document actually pushed, for which the spec says the
count reflects 1) the code still returns 0. -/
theorem C9_count_stays_zero :
    (∀ (eng : Engine) (fails : String → Bool) (gc : Except String Item)
        (ck : String) (roe : Bool) (ta : Option Int) (c : Option Nat),
      (index_course true eng fails gc ck roe ta).result =
          IndexResult.returned c → c = some 0) ∧
    (index_course true ⟨[]⟩ noFails (Except.ok scenarioACourse) "c" false
        none).walk.pushedDocs.length = 1 ∧
    (index_course true ⟨[]⟩ noFails (Except.ok scenarioACourse) "c" false
        none).result = IndexResult.returned (some 0) := by
  refine ⟨?_, rfl, rfl⟩
  intro eng fails gc ck roe ta c hc
  cases gc with
  | error e =>
    exact IndexResult.noConfusion hc
  | ok course =>
    rw [index_course] at hc
    simp only [Bool.not_true, Bool.false_eq_true, if_false] at hc
    rcases hW : index_items fails ck ta course.children course.start false
      emptyState with ⟨st, f⟩
    rw [hW] at hc
    cases f with
    | some e =>
      exact (finishResult_cases roe (st.errorList ++ [generalErrorMsg])).2.2.2
        c hc
    | none =>
      exact (finishResult_cases roe st.errorList).2.2.2 c hc

/-- C9 witness: the general statement applied to the Scenario A run, which
returns normally after pushing exactly one document. -/
theorem C9_count_stays_zero_witness :
    (some 0 : Option Nat) = some 0 ∧
    (index_course true ⟨[]⟩ noFails (Except.ok scenarioACourse) "c" false
        none).result = IndexResult.returned (some 0) :=
  ⟨C9_count_stays_zero.1 ⟨[]⟩ noFails (Except.ok scenarioACourse) "c" false
      none (some 0) rfl,
   C9_count_stays_zero.2.2⟩

/-- C10.  When `get_search_engine` yields no engine, `index_course`
returns `None` (not a count) with no walk state, no engine operation and
no error, whatever the modulestore would do (including raising) and even
with `raise_on_error = true`. -/
theorem C10_no_engine_noop (eng : Engine) (fails : String → Bool)
    (gc : Except String Item) (ck : String) (roe : Bool) (ta : Option Int) :
    index_course false eng fails gc ck roe ta =
      ⟨IndexResult.returned none, eng, emptyState⟩ := by
  rfl

end CoursewareIndex
